import Mathlib

/-!
Verification of the versioned manifest persistence and migration subsystem of
`quickwit-metastore/src/metastore/file_backed/manifest.rs`.

The Rust code is shallowly embedded:
* `BTreeMap<String, _>` is an association list sorted strictly by key
  (`btInsert` / `btFromList` mirror `BTreeMap::insert` and `collect`);
* `HashMap<String, _>` is an association list with unique keys whose order is
  irrelevant; `hmInsert` / `hmFromList` mirror `HashMap::insert` and `collect`
  (an insert on an existing key replaces the value in place);
* the string order used by `BTreeMap` and `Ord::cmp` on identifiers is
  codepoint-lexicographic (`strLt`);
* JSON documents are abstracted structurally by `JsonDoc`: a document with a
  `version` tag and a current-version payload, a flat string-to-string object
  (the legacy shape), or anything else (`garbage`);
* the async storage functions become explicit state passing over `Store`,
  which holds the optional content of the two well-known paths
  (`manifest.json` and `indexes_states.json`) and a flag saying whether the
  storage `delete` operation fails.
-/
/-- Codepoint-lexicographic strict order on char lists, modelling the order
`Ord::cmp` gives identifier strings in the Rust code (`BTreeMap` key order and
`sorted_unstable_by` on `template_id`). -/
def strLtB : List Char → List Char → Bool
  | [], [] => false
  | [], _ :: _ => true
  | _ :: _, [] => false
  | a :: as, b :: bs =>
    if a.toNat < b.toNat then true
    else if b.toNat < a.toNat then false
    else strLtB as bs

/-- Strict order on strings, via their character data. -/
def strLt (a b : String) : Bool := strLtB a.data b.data
/-- Lookup in an association list: value of the first entry with the given
key, the read operation shared by both map models. -/
def alookup (k : String) : List (String × α) → Option α
  | [] => none
  | p :: t => if p.1 = k then some p.2 else alookup k t

/-- First-some choice on options, used to state lookup-append lemmas. -/
def oor : Option α → Option α → Option α
  | some v, _ => some v
  | none, b => b

/-- Two maps are equal as mappings: every key looks up to the same value. -/
def MapEq (m1 m2 : List (String × α)) : Prop := ∀ k, alookup k m1 = alookup k m2

/-- The keys are strictly sorted: the `BTreeMap` representation invariant. -/
def sortedKeys (l : List (String × α)) : Prop :=
  l.Pairwise (fun p q => strLt p.1 q.1 = true)

/-- The keys are pairwise distinct: the `HashMap` representation invariant. -/
def nodupKeys (l : List (String × α)) : Prop := (l.map Prod.fst).Nodup

/-- Model of `HashMap::insert`: replace the value of an existing key in place,
otherwise add a new entry. -/
def hmInsert (k : String) (v : α) : List (String × α) → List (String × α)
  | [] => [(k, v)]
  | p :: t => if p.1 = k then (k, v) :: t else p :: hmInsert k v t

/-- Model of `collect` into a `HashMap`: left-to-right inserts into an empty map, so a
later entry with the same key overwrites an earlier one. -/
def hmFromList (l : List (String × α)) : List (String × α) :=
  l.foldl (fun m p => hmInsert p.1 p.2 m) []

/-- Model of `BTreeMap::insert`: ordered insert that replaces an existing equal key. -/
def btInsert (k : String) (v : α) : List (String × α) → List (String × α)
  | [] => [(k, v)]
  | p :: t =>
    if strLt k p.1 then (k, v) :: p :: t
    else if k = p.1 then (k, v) :: t
    else p :: btInsert k v t

/-- Model of `collect` into a `BTreeMap`: left-to-right ordered inserts into an empty
map. -/
def btFromList (l : List (String × α)) : List (String × α) :=
  l.foldl (fun m p => btInsert p.1 p.2 m) []
/-- The index lifecycle status enum (`IndexStatus` in `manifest.rs`). -/
inductive IndexStatus where
  | Creating
  | Active
  | Deleting
deriving DecidableEq

/-- Serialization of `IndexStatus`, modelling the serde `Serialize` derive
with `rename_all = "snake_case"`: output is always the canonical
lower-snake-case spelling. -/
def IndexStatus.serialize : IndexStatus → String
  | .Creating => "creating"
  | .Active => "active"
  | .Deleting => "deleting"

/-- Deserialization of `IndexStatus`, modelling the serde `Deserialize`
derive with `rename_all = "snake_case"` and the explicit aliases
`"Creating"`, `"Alive"` and `"Deleting"`: each variant accepts its canonical
renamed spelling plus its declared alias, and nothing else. -/
def IndexStatus.deserialize (s : String) : Option IndexStatus :=
  if s = "creating" ∨ s = "Creating" then some .Creating
  else if s = "active" ∨ s = "Alive" then some .Active
  else if s = "deleting" ∨ s = "Deleting" then some .Deleting
  else none

/-- Modelled from the spec: `IndexTemplate` lives in `quickwit-config`, which
is outside the sources at hand; the spec treats it as "opaque to this
subsystem beyond its identifier, pattern list, and priority". -/
structure IndexTemplate where
  template_id : String
  index_id_patterns : List String
  priority : Nat
deriving DecidableEq

/-- The in-memory aggregate (`Manifest` in `manifest.rs`): `indexes` is a
`BTreeMap` (strictly key-sorted association list), `templates` a `HashMap`
(association list with unique keys, order irrelevant). -/
structure Manifest where
  indexes : List (String × IndexStatus)
  templates : List (String × IndexTemplate)
deriving DecidableEq

/-- Model of `Manifest::default()`: both maps empty. -/
def Manifest.default : Manifest := { indexes := [], templates := [] }

/-- The representation invariants of a `Manifest` value: the `BTreeMap` keys
are strictly sorted, the `HashMap` keys are distinct, and every template is
keyed by its own `template_id`. -/
def Manifest.valid (m : Manifest) : Prop :=
  sortedKeys m.indexes ∧ nodupKeys m.templates ∧
    ∀ p ∈ m.templates, p.2.template_id = p.1

instance (m : Manifest) : Decidable m.valid := by
  unfold Manifest.valid sortedKeys nodupKeys
  infer_instance

/-- The pre-versioning wire shape (`LegacyManifest` in `manifest.rs`): a flat
map from index id to status. -/
structure LegacyManifest where
  indexes : List (String × IndexStatus)
deriving DecidableEq

/-- Model of `LegacyManifest::into_manifest`: copy the indexes verbatim, start with no
templates (`HashMap::new()`). -/
def LegacyManifest.into_manifest (lm : LegacyManifest) : Manifest :=
  { indexes := lm.indexes, templates := [] }

/-- The current-version wire payload (`ManifestV0_7` in `manifest.rs`):
indexes as a `BTreeMap`, templates as a sequence. -/
structure ManifestV0_7 where
  indexes : List (String × IndexStatus)
  templates : List IndexTemplate
deriving DecidableEq

/-- Sorting relation used when encoding templates:
`left.template_id.cmp(&right.template_id)` as a non-strict order (`a` may
come before `b` exactly when `b`'s id is not strictly below `a`'s). -/
def tplLe (a b : IndexTemplate) : Prop := strLt b.template_id a.template_id = false

/-- Ordered insert of a template into a list already sorted ascending by
`template_id`. -/
def orderedInsertTpl (t : IndexTemplate) : List IndexTemplate → List IndexTemplate
  | [] => [t]
  | u :: us =>
    if strLt u.template_id t.template_id then u :: orderedInsertTpl t us
    else t :: u :: us

/-- Insertion sort of templates by `template_id`, modelling
`sorted_unstable_by(|left, right| left.template_id.cmp(&right.template_id))`
(any comparison sort computes the same ascending sequence once ids are
distinct). -/
def sortTemplates : List IndexTemplate → List IndexTemplate
  | [] => []
  | t :: ts => orderedInsertTpl t (sortTemplates ts)

/-- Model of `From<Manifest> for ManifestV0_7`: indexes pass through, template values
are sorted ascending by `template_id` (`sorted_unstable_by`). -/
def ManifestV0_7.ofManifest (m : Manifest) : ManifestV0_7 :=
  { indexes := m.indexes,
    templates := sortTemplates (m.templates.map Prod.snd) }

/-- Model of `From<ManifestV0_7> for Manifest`: indexes are collected back into a
`BTreeMap`, templates are keyed by their own `template_id` and collected into
a `HashMap` (so a duplicate id silently overwrites: last one wins). -/
def Manifest.ofV0_7 (v : ManifestV0_7) : Manifest :=
  { indexes := btFromList v.indexes,
    templates := hmFromList (v.templates.map fun t => (t.template_id, t)) }

/-- The versioned envelope enum (`VersionedManifest` in `manifest.rs`),
with its single current variant. -/
inductive VersionedManifest where
  | V0_7 (m : ManifestV0_7)
deriving DecidableEq

/-- Structural abstraction of a JSON document stored at the store: either an
object carrying a `version` tag and a current-version payload, a flat
string-to-string object (the legacy shape), or anything else. -/
inductive JsonDoc where
  | versioned (tag : String) (payload : ManifestV0_7)
  | flat (entries : List (String × String))
  | garbage
deriving DecidableEq

/-- Serde encoding of a `Manifest` through `#[serde(into = "VersionedManifest")]`
and the internally tagged enum (`tag = "version"`, variant renamed `"0.7"`). -/
def encodeManifest (m : Manifest) : JsonDoc :=
  .versioned "0.7" (ManifestV0_7.ofManifest m)

/-- Serde decoding of a `Manifest` through `#[serde(from = "VersionedManifest")]`:
the version tag is read first and an unrecognized tag is a decode error; the
`"0.7"` payload is converted with `From<ManifestV0_7>`. -/
def decodeManifest (doc : JsonDoc) : Except String Manifest :=
  match doc with
  | .versioned tag payload =>
    if tag = "0.7" then .ok (Manifest.ofV0_7 payload)
    else .error ("unknown variant `" ++ tag ++ "`")
  | _ => .error "data did not match any variant of enum VersionedManifest"

/-- Parse the values of a flat JSON object as index statuses; any
unrecognized status string fails the whole parse. -/
def parseStatusEntries : List (String × String) → Option (List (String × IndexStatus))
  | [] => some []
  | p :: t =>
    match IndexStatus.deserialize p.2, parseStatusEntries t with
    | some s, some rest => some ((p.1, s) :: rest)
    | _, _ => none

/-- Serde decoding of a `LegacyManifest`: a flat object whose values are
(alias-tolerant) statuses, collected into a `BTreeMap`. -/
def decodeLegacyManifest (doc : JsonDoc) : Except String LegacyManifest :=
  match doc with
  | .flat entries =>
    match parseStatusEntries entries with
    | some parsed => .ok { indexes := btFromList parsed }
    | none => .error "unknown variant of enum IndexStatus"
  | _ => .error "invalid type for LegacyManifest"

/-- JSON string literal rendering (escaping elided: identifiers are assumed
escape-free). -/
def jsonStr (s : String) : String := "\"" ++ s ++ "\""

/-- Comma-separated concatenation, as in a JSON object or array body. -/
def joinComma : List String → String
  | [] => ""
  | [x] => x
  | x :: y :: t => x ++ "," ++ joinComma (y :: t)

/-- Rendering of the indexes map as a JSON object. -/
def renderIndexes (l : List (String × IndexStatus)) : String :=
  "\x7b" ++ joinComma (l.map fun p => jsonStr p.1 ++ ":" ++ jsonStr p.2.serialize) ++ "\x7d"

/-- Rendering of one template as a JSON object. -/
def renderTemplate (t : IndexTemplate) : String :=
  "\x7b" ++ jsonStr "template_id" ++ ":" ++ jsonStr t.template_id ++ ","
    ++ jsonStr "index_id_patterns" ++ ":[" ++ joinComma (t.index_id_patterns.map jsonStr)
    ++ "]," ++ jsonStr "priority" ++ ":" ++ toString t.priority ++ "\x7d"

/-- Modelled from the spec: `serde_utils::to_json_bytes_pretty` lives in
`quickwit-proto`, outside the sources at hand; per the spec (section 6 file
layout) it renders the envelope
`{ "version": "0.7", "indexes": {...}, "templates": [...] }`. Pretty-printing
whitespace is elided; only the byte content's structure and non-emptiness
matter here. -/
def to_json_bytes (m : Manifest) : String :=
  let v := ManifestV0_7.ofManifest m
  "\x7b" ++ jsonStr "version" ++ ":" ++ jsonStr "0.7" ++ ","
    ++ jsonStr "indexes" ++ ":" ++ renderIndexes v.indexes ++ ","
    ++ jsonStr "templates" ++ ":[" ++ joinComma (v.templates.map renderTemplate)
    ++ "]" ++ "\x7d"

/-- Modelled from the spec: `StorageErrorKind` lives in `quickwit-storage`,
outside the sources at hand; per the spec (section 6) storage failures
"expose at minimum an 'unauthorized' kind distinguishable from other kinds". -/
inductive StorageErrorKind where
  | Unauthorized
  | OtherKind (name : String)
deriving DecidableEq

/-- Modelled from the spec: a storage failure exposes its kind and a
human-readable description (`StorageError::to_string()`). -/
structure StorageError where
  kind : StorageErrorKind
  description : String
deriving DecidableEq

/-- Modelled from the spec: the domain error type (`MetastoreError` in
`quickwit-proto`) as used by this subsystem — `Forbidden { message }`,
`Internal { message, cause }`, and the decode-failure variant produced by
`serde_utils::from_json_bytes` ("decode failure propagates as a domain
error"). -/
inductive MetastoreError where
  | Forbidden (message : String)
  | Internal (message : String) (cause : String)
  | JsonDeserializeError (message : String)
deriving DecidableEq

/-- The error classifier (`into_metastore_error` in `manifest.rs`). -/
def into_metastore_error (storage_error : StorageError) (uri : String) (path : String)
    (operation_name : String) : MetastoreError :=
  match storage_error.kind with
  | .Unauthorized =>
    .Forbidden ("failed to access manifest file located at `" ++ uri ++ "/" ++ path
      ++ "`: unauthorized")
  | _ =>
    .Internal ("failed to " ++ operation_name ++ " manifest file located at `" ++ uri
      ++ "/" ++ path ++ "`") storage_error.description

/-- The store: the optional JSON content of the two well-known paths, plus
whether the storage `delete` operation fails. Existence checks, reads and
writes are modelled as succeeding; classified storage-failure propagation is
covered separately by `into_metastore_error`. -/
structure Store where
  manifestFile : Option JsonDoc
  legacyFile : Option JsonDoc
  deleteFails : Bool
deriving DecidableEq

/-- Model of `save_manifest`: serialize via the schema codec and overwrite the
current-format file unconditionally. -/
def save_manifest (s : Store) (m : Manifest) : Store :=
  { s with manifestFile := some (encodeManifest m) }

/-- Model of `load_or_create_manifest`: the migration orchestrator, as explicit state
passing. Returns the call's result together with the final store state. The
legacy-file deletion failure is logged and swallowed, exactly as in the
source. -/
def load_or_create_manifest (s : Store) : Except MetastoreError Manifest × Store :=
  match s.manifestFile with
  | some doc =>
    match decodeManifest doc with
    | .ok manifest => (.ok manifest, s)
    | .error e => (.error (.JsonDeserializeError e), s)
  | none =>
  match s.legacyFile with
  | some doc =>
    match decodeLegacyManifest doc with
    | .ok legacy_manifest =>
      let manifest := legacy_manifest.into_manifest
      let s1 := save_manifest s manifest
      let s2 := if s1.deleteFails then s1 else { s1 with legacyFile := none }
      (.ok manifest, s2)
    | .error e => (.error (.JsonDeserializeError e), s)
  | none =>
    let manifest := Manifest.default
    (.ok manifest, save_manifest s manifest)

/-- Concrete template (shape of `IndexTemplate::for_test("tpl-a", ...)`). -/
def sampleTemplateA : IndexTemplate :=
  { template_id := "tpl-a", index_id_patterns := ["idx-a*"], priority := 100 }

/-- Concrete template with a later identifier. -/
def sampleTemplateB : IndexTemplate :=
  { template_id := "tpl-b", index_id_patterns := ["idx-b*"], priority := 200 }

/-- Concrete valid aggregate; templates deliberately listed out of id order. -/
def sampleManifest : Manifest :=
  { indexes := [("idx-a", .Active), ("idx-b", .Creating)],
    templates := [("tpl-b", sampleTemplateB), ("tpl-a", sampleTemplateA)] }

/-- Store holding a current-format file with an unrecognized version tag. -/
def sampleStoreBadVersion : Store :=
  { manifestFile := some (.versioned "0.4" { indexes := [], templates := [] }),
    legacyFile := none, deleteFails := false }

/-- The legacy flat document used by the repository's own migration test. -/
def sampleLegacyDoc : JsonDoc :=
  .flat [("test-index-1", "Creating"), ("test-index-2", "Alive"), ("test-index-3", "Deleting")]

/-- The decoded form of `sampleLegacyDoc`. -/
def sampleLegacyParsed : LegacyManifest :=
  { indexes := [("test-index-1", .Creating), ("test-index-2", .Active),
      ("test-index-3", .Deleting)] }

/-- Store holding only the legacy file. -/
def sampleStoreLegacy : Store :=
  { manifestFile := none, legacyFile := some sampleLegacyDoc, deleteFails := false }

/-- Same store, but the storage delete operation fails. -/
def sampleStoreLegacyDeleteFails : Store :=
  { manifestFile := none, legacyFile := some sampleLegacyDoc, deleteFails := true }

/-- The aggregate the legacy document migrates to. -/
def sampleMigrated : Manifest :=
  { indexes := [("test-index-1", .Creating), ("test-index-2", .Active),
      ("test-index-3", .Deleting)],
    templates := [] }

/-- The store state after migrating `sampleStoreLegacy`. -/
def sampleMigratedStore : Store :=
  { manifestFile := some (encodeManifest sampleMigrated), legacyFile := none,
    deleteFails := false }

/-- An empty store: neither file exists. -/
def sampleStoreEmpty : Store :=
  { manifestFile := none, legacyFile := none, deleteFails := false }

/-- The same aggregate as `sampleManifest` with the template entries listed
in the opposite order: equal as a mapping, different as a sequence. -/
def samplePermManifest : Manifest :=
  { indexes := [("idx-a", .Active), ("idx-b", .Creating)],
    templates := [("tpl-a", sampleTemplateA), ("tpl-b", sampleTemplateB)] }

/-- A current-version payload whose template sequence repeats an id with
different bodies. -/
def sampleDupPayload : ManifestV0_7 :=
  { indexes := [],
    templates := [{ template_id := "tpl-a", index_id_patterns := ["x*"], priority := 1 },
      { template_id := "tpl-a", index_id_patterns := ["y*"], priority := 2 }] }

theorem strLtB_irrefl : ∀ l : List Char, strLtB l l = false := by
  intro l
  induction l with
  | nil => rfl
  | cons a as ih => simp [strLtB, ih]

theorem strLtB_trans : ∀ {l1 l2 l3 : List Char},
    strLtB l1 l2 = true → strLtB l2 l3 = true → strLtB l1 l3 = true := by
  intro l1
  induction l1 with
  | nil =>
    intro l2 l3 h12 h23
    cases l2 with
    | nil => exact h23
    | cons b bs =>
      cases l3 with
      | nil => simp [strLtB] at h23
      | cons c cs => rfl
  | cons a as ih =>
    intro l2 l3 h12 h23
    cases l2 with
    | nil => simp [strLtB] at h12
    | cons b bs =>
      cases l3 with
      | nil => simp [strLtB] at h23
      | cons c cs =>
        simp only [strLtB] at h12 h23 ⊢
        rcases Nat.lt_trichotomy a.toNat b.toNat with hab | hab | hab
        · rcases Nat.lt_trichotomy b.toNat c.toNat with hbc | hbc | hbc
          · simp [Nat.lt_trans hab hbc]
          · simp [hbc ▸ hab]
          · simp only [if_neg (Nat.lt_asymm hbc), if_pos hbc] at h23
            exact absurd h23 (by simp)
        · rcases Nat.lt_trichotomy b.toNat c.toNat with hbc | hbc | hbc
          · simp [hab ▸ hbc]
          · have n12 : ¬ a.toNat < b.toNat := by omega
            have n21 : ¬ b.toNat < a.toNat := by omega
            have n23 : ¬ b.toNat < c.toNat := by omega
            have n32 : ¬ c.toNat < b.toNat := by omega
            have n13 : ¬ a.toNat < c.toNat := by omega
            have n31 : ¬ c.toNat < a.toNat := by omega
            simp only [if_neg n12, if_neg n21] at h12
            simp only [if_neg n23, if_neg n32] at h23
            simp only [if_neg n13, if_neg n31]
            exact ih h12 h23
          · simp only [if_neg (Nat.lt_asymm hbc), if_pos hbc] at h23
            exact absurd h23 (by simp)
        · simp only [if_neg (Nat.lt_asymm hab), if_pos hab] at h12
          exact absurd h12 (by simp)

theorem strLtB_eq_of_not_lt : ∀ {l1 l2 : List Char},
    strLtB l1 l2 = false → strLtB l2 l1 = false → l1 = l2 := by
  intro l1
  induction l1 with
  | nil =>
    intro l2 h12 h21
    cases l2 with
    | nil => rfl
    | cons b bs => simp [strLtB] at h12
  | cons a as ih =>
    intro l2 h12 h21
    cases l2 with
    | nil => simp [strLtB] at h21
    | cons b bs =>
      simp only [strLtB] at h12 h21
      rcases Nat.lt_trichotomy a.toNat b.toNat with hab | hab | hab
      · simp [hab] at h12
      · have hchar : a = b := by
          apply Char.ext
          apply UInt32.toNat.inj
          exact hab
        have n12 : ¬ a.toNat < b.toNat := by omega
        have n21 : ¬ b.toNat < a.toNat := by omega
        simp only [if_neg n12, if_neg n21] at h12 h21
        rw [hchar, ih h12 h21]
      · simp [hab] at h21

theorem strLt_irrefl (a : String) : strLt a a = false := strLtB_irrefl a.data

theorem strLt_trans {a b c : String} (h1 : strLt a b = true) (h2 : strLt b c = true) :
    strLt a c = true := strLtB_trans h1 h2

theorem strLt_asymm {a b : String} (h : strLt a b = true) : strLt b a = false := by
  cases hba : strLt b a with
  | false => rfl
  | true => exact absurd (strLt_irrefl a) (by simp [strLt_trans h hba])

theorem strLt_eq_of_not_lt {a b : String} (h1 : strLt a b = false) (h2 : strLt b a = false) :
    a = b := String.ext (strLtB_eq_of_not_lt h1 h2)

theorem strLt_total (a b : String) : strLt a b = true ∨ strLt b a = true ∨ a = b := by
  cases hab : strLt a b with
  | true => exact Or.inl rfl
  | false =>
    cases hba : strLt b a with
    | true => exact Or.inr (Or.inl rfl)
    | false => exact Or.inr (Or.inr (strLt_eq_of_not_lt hab hba))

theorem alookup_append (k : String) (l1 l2 : List (String × α)) :
    alookup k (l1 ++ l2) = oor (alookup k l1) (alookup k l2) := by
  induction l1 with
  | nil => simp [alookup, oor]
  | cons p t ih =>
    by_cases h : p.1 = k
    · simp [alookup, h, oor]
    · simp [alookup, h, ih]

theorem alookup_hmInsert (k k' : String) (v : α) (m : List (String × α)) :
    alookup k' (hmInsert k v m) = if k = k' then some v else alookup k' m := by
  induction m with
  | nil => simp [hmInsert, alookup]
  | cons p t ih =>
    by_cases hpk : p.1 = k
    · by_cases hkk : k = k'
      · simp [hmInsert, hpk, alookup, hkk]
      · have hpk' : ¬ p.1 = k' := by rw [hpk]; exact hkk
        simp [hmInsert, hpk, alookup, hkk, hpk']
    · by_cases hpk' : p.1 = k'
      · have hkk : ¬ k = k' := by
          intro h
          exact hpk (h ▸ hpk')
        have hkk' : ¬ k' = k := fun h => hkk h.symm
        simp [hmInsert, hpk, alookup, hpk', hkk, hkk']
      · simp [hmInsert, hpk, alookup, hpk', ih]

theorem alookup_foldl_hmInsert (k : String) (l m : List (String × α)) :
    alookup k (l.foldl (fun m p => hmInsert p.1 p.2 m) m)
      = oor (alookup k l.reverse) (alookup k m) := by
  induction l generalizing m with
  | nil => simp [alookup, oor]
  | cons p t ih =>
    simp only [List.foldl_cons, List.reverse_cons]
    rw [ih, alookup_append]
    by_cases hpk : p.1 = k
    · cases htail : alookup k t.reverse with
      | some w => simp [oor]
      | none => simp [oor, alookup, hpk, alookup_hmInsert]
    · cases htail : alookup k t.reverse with
      | some w => simp [oor]
      | none =>
        have hkp : ¬ k = p.1 := fun h => hpk h.symm
        simp [oor, alookup, hpk, alookup_hmInsert, hkp]

theorem alookup_hmFromList (k : String) (l : List (String × α)) :
    alookup k (hmFromList l) = alookup k l.reverse := by
  unfold hmFromList
  rw [alookup_foldl_hmInsert]
  cases h : alookup k l.reverse with
  | some v => rfl
  | none => rfl

theorem alookup_eq_none_iff (k : String) (l : List (String × α)) :
    alookup k l = none ↔ k ∉ l.map Prod.fst := by
  induction l with
  | nil => simp [alookup]
  | cons p t ih =>
    by_cases h : p.1 = k
    · simp [alookup, h]
    · simp only [alookup, if_neg h, List.map_cons, List.mem_cons, ih]
      constructor
      · intro hn hmem
        rcases hmem with hmem | hmem
        · exact h hmem.symm
        · exact hn hmem
      · intro hn hmem
        exact hn (Or.inr hmem)

theorem alookup_eq_some_of_mem {k : String} {v : α} {l : List (String × α)}
    (hnd : nodupKeys l) (hmem : (k, v) ∈ l) : alookup k l = some v := by
  induction l with
  | nil => cases hmem
  | cons p t ih =>
    unfold nodupKeys at hnd
    simp only [List.map_cons, List.nodup_cons] at hnd
    rcases List.mem_cons.mp hmem with hmem | hmem
    · cases hmem
      simp [alookup]
    · have hk : k ∈ t.map Prod.fst := List.mem_map.mpr ⟨(k, v), hmem, rfl⟩
      have hne : ¬ p.1 = k := by
        intro h
        exact hnd.1 (h ▸ hk)
      simp [alookup, hne, ih hnd.2 hmem]

theorem mem_of_alookup_eq_some {k : String} {v : α} {l : List (String × α)}
    (h : alookup k l = some v) : (k, v) ∈ l := by
  induction l with
  | nil => cases h
  | cons p t ih =>
    by_cases hpk : p.1 = k
    · simp only [alookup, if_pos hpk] at h
      cases h
      exact List.mem_cons.mpr (Or.inl (by rw [← hpk]))
    · simp only [alookup, if_neg hpk] at h
      exact List.mem_cons.mpr (Or.inr (ih h))

theorem nodup_of_nodupKeys {l : List (String × α)} (h : nodupKeys l) : l.Nodup :=
  List.Nodup.of_map Prod.fst h

theorem nodupKeys_of_perm {l1 l2 : List (String × α)} (hperm : l1.Perm l2)
    (hnd : nodupKeys l2) : nodupKeys l1 :=
  ((hperm.map Prod.fst).nodup_iff).mpr hnd

theorem alookup_perm {l1 l2 : List (String × α)} (hperm : l1.Perm l2)
    (hnd : nodupKeys l2) (k : String) : alookup k l1 = alookup k l2 := by
  have hnd1 : nodupKeys l1 := nodupKeys_of_perm hperm hnd
  cases h1 : alookup k l1 with
  | some v =>
    exact (alookup_eq_some_of_mem hnd (hperm.mem_iff.mp (mem_of_alookup_eq_some h1))).symm
  | none =>
    cases h2 : alookup k l2 with
    | none => rfl
    | some v =>
      have : (k, v) ∈ l1 := hperm.mem_iff.mpr (mem_of_alookup_eq_some h2)
      rw [alookup_eq_some_of_mem hnd1 this] at h1
      cases h1

theorem alookup_reverse {l : List (String × α)} (hnd : nodupKeys l) (k : String) :
    alookup k l.reverse = alookup k l :=
  alookup_perm l.reverse_perm hnd k

theorem perm_of_mapEq {l1 l2 : List (String × α)} (hnd1 : nodupKeys l1)
    (hnd2 : nodupKeys l2) (heq : MapEq l1 l2) : l1.Perm l2 := by
  apply (List.perm_ext_iff_of_nodup (nodup_of_nodupKeys hnd1) (nodup_of_nodupKeys hnd2)).mpr
  intro p
  constructor
  · intro hmem
    apply mem_of_alookup_eq_some
    rw [← heq p.1]
    exact alookup_eq_some_of_mem hnd1 hmem
  · intro hmem
    apply mem_of_alookup_eq_some
    rw [heq p.1]
    exact alookup_eq_some_of_mem hnd2 hmem

theorem btInsert_of_keys_lt {k : String} {v : α} {m : List (String × α)}
    (h : ∀ p ∈ m, strLt p.1 k = true) : btInsert k v m = m ++ [(k, v)] := by
  induction m with
  | nil => rfl
  | cons p t ih =>
    have hp : strLt p.1 k = true := h p (List.mem_cons_self p t)
    have h1 : strLt k p.1 = false := strLt_asymm hp
    have h2 : ¬ k = p.1 := by
      intro he
      rw [he] at hp
      rw [strLt_irrefl] at hp
      cases hp
    simp only [btInsert, h1, if_neg h2]
    rw [ih fun q hq => h q (List.mem_cons_of_mem p hq)]
    simp

theorem foldl_btInsert_of_sorted {m l : List (String × α)} (h : sortedKeys (m ++ l)) :
    l.foldl (fun m p => btInsert p.1 p.2 m) m = m ++ l := by
  induction l generalizing m with
  | nil => simp
  | cons p t ih =>
    have hlt : ∀ q ∈ m, strLt q.1 p.1 = true := by
      intro q hq
      unfold sortedKeys at h
      exact (List.pairwise_append.mp h).2.2 q hq p (List.mem_cons_self p t)
    simp only [List.foldl_cons]
    rw [btInsert_of_keys_lt hlt]
    have hassoc : m ++ [(p.1, p.2)] ++ t = m ++ p :: t := by simp
    have h' : sortedKeys (m ++ [(p.1, p.2)] ++ t) := by
      rw [hassoc]
      exact h
    rw [ih h', hassoc]

theorem btFromList_eq_self {l : List (String × α)} (h : sortedKeys l) :
    btFromList l = l := by
  unfold btFromList
  have := foldl_btInsert_of_sorted (m := []) (l := l) (by simpa using h)
  simpa using this

theorem mem_btInsert {q : String × α} {k : String} {v : α} {m : List (String × α)}
    (h : q ∈ btInsert k v m) : q = (k, v) ∨ q ∈ m := by
  induction m with
  | nil =>
    simp only [btInsert, List.mem_singleton] at h
    exact Or.inl h
  | cons p t ih =>
    simp only [btInsert] at h
    by_cases h1 : strLt k p.1
    · rw [if_pos h1] at h
      rcases List.mem_cons.mp h with h | h
      · exact Or.inl h
      · exact Or.inr h
    · rw [if_neg h1] at h
      by_cases h2 : k = p.1
      · rw [if_pos h2] at h
        rcases List.mem_cons.mp h with h | h
        · exact Or.inl h
        · exact Or.inr (List.mem_cons_of_mem p h)
      · rw [if_neg h2] at h
        rcases List.mem_cons.mp h with h | h
        · exact Or.inr (List.mem_cons.mpr (Or.inl h))
        · rcases ih h with h | h
          · exact Or.inl h
          · exact Or.inr (List.mem_cons_of_mem p h)

theorem sortedKeys_btInsert {k : String} {v : α} {m : List (String × α)}
    (h : sortedKeys m) : sortedKeys (btInsert k v m) := by
  induction m with
  | nil => simp [btInsert, sortedKeys]
  | cons p t ih =>
    unfold sortedKeys at h ih ⊢
    rcases List.pairwise_cons.mp h with ⟨hp, ht⟩
    simp only [btInsert]
    by_cases h1 : strLt k p.1
    · rw [if_pos h1]
      apply List.pairwise_cons.mpr
      constructor
      · intro q hq
        rcases List.mem_cons.mp hq with hq | hq
        · rw [hq]
          exact h1
        · exact strLt_trans h1 (hp q hq)
      · exact h
    · rw [if_neg h1]
      by_cases h2 : k = p.1
      · rw [if_pos h2]
        apply List.pairwise_cons.mpr
        exact ⟨fun q hq => h2 ▸ hp q hq, ht⟩
      · rw [if_neg h2]
        apply List.pairwise_cons.mpr
        constructor
        · intro q hq
          rcases mem_btInsert hq with hq | hq
          · rw [hq]
            rcases strLt_total p.1 k with h3 | h3 | h3
            · exact h3
            · exact absurd h3 (by simpa using h1)
            · exact absurd h3.symm h2
          · exact hp q hq
        · exact ih ht

theorem sortedKeys_btFromList (l : List (String × α)) : sortedKeys (btFromList l) := by
  unfold btFromList
  have aux : ∀ (l m : List (String × α)), sortedKeys m →
      sortedKeys (l.foldl (fun m p => btInsert p.1 p.2 m) m) := by
    intro l
    induction l with
    | nil => intro m hm; exact hm
    | cons p t ih =>
      intro m hm
      simp only [List.foldl_cons]
      exact ih _ (sortedKeys_btInsert hm)
  exact aux l [] (by simp [sortedKeys])

theorem perm_eq_of_pairwise_key_lt {α : Type _} (key : α → String) :
    ∀ {l1 l2 : List α}, l1.Perm l2 →
      l1.Pairwise (fun a b => strLt (key a) (key b) = true) →
      l2.Pairwise (fun a b => strLt (key a) (key b) = true) → l1 = l2 := by
  intro l1
  induction l1 with
  | nil =>
    intro l2 hperm _ _
    exact hperm.nil_eq
  | cons a t1 ih =>
    intro l2 hperm hp1 hp2
    cases l2 with
    | nil => exact absurd hperm.eq_nil (by simp)
    | cons b t2 =>
      by_cases hab : a = b
      · subst hab
        rcases List.pairwise_cons.mp hp1 with ⟨_, ht1⟩
        rcases List.pairwise_cons.mp hp2 with ⟨_, ht2⟩
        rw [ih hperm.cons_inv ht1 ht2]
      · have ha2 : a ∈ t2 := by
          have : a ∈ b :: t2 := hperm.mem_iff.mp (List.mem_cons_self a t1)
          rcases List.mem_cons.mp this with h | h
          · exact absurd h hab
          · exact h
        have hb1 : b ∈ t1 := by
          have : b ∈ a :: t1 := hperm.mem_iff.mpr (List.mem_cons_self b t2)
          rcases List.mem_cons.mp this with h | h
          · exact absurd h.symm hab
          · exact h
        have h1 : strLt (key a) (key b) = true :=
          (List.pairwise_cons.mp hp1).1 b hb1
        have h2 : strLt (key b) (key a) = true :=
          (List.pairwise_cons.mp hp2).1 a ha2
        exact absurd h2 (by simp [strLt_asymm h1])

theorem nodupKeys_of_sortedKeys {l : List (String × α)} (h : sortedKeys l) :
    nodupKeys l := by
  unfold nodupKeys
  show (l.map Prod.fst).Pairwise (fun a b => a ≠ b)
  apply List.pairwise_map.mpr
  apply h.imp
  intro p q hpq heq
  rw [heq] at hpq
  rw [strLt_irrefl] at hpq
  cases hpq

theorem orderedInsertTpl_perm (t : IndexTemplate) (l : List IndexTemplate) :
    (orderedInsertTpl t l).Perm (t :: l) := by
  induction l with
  | nil => exact List.Perm.refl _
  | cons u us ih =>
    cases hcase : strLt u.template_id t.template_id with
    | true =>
      simp only [orderedInsertTpl, hcase, if_pos]
      exact (ih.cons u).trans (List.Perm.swap t u us)
    | false =>
      simp only [orderedInsertTpl, hcase]
      exact List.Perm.refl _

theorem sortTemplates_perm (l : List IndexTemplate) : (sortTemplates l).Perm l := by
  induction l with
  | nil => exact List.Perm.refl _
  | cons t ts ih => exact (orderedInsertTpl_perm t (sortTemplates ts)).trans (ih.cons t)

theorem orderedInsertTpl_pairwise_le {t : IndexTemplate} {l : List IndexTemplate}
    (h : l.Pairwise tplLe) : (orderedInsertTpl t l).Pairwise tplLe := by
  induction l with
  | nil => simp [orderedInsertTpl]
  | cons u us ih =>
    rcases List.pairwise_cons.mp h with ⟨hu, hus⟩
    cases hcase : strLt u.template_id t.template_id with
    | true =>
      simp only [orderedInsertTpl, hcase, if_pos]
      apply List.pairwise_cons.mpr
      refine ⟨?_, ih hus⟩
      intro x hx
      rcases List.mem_cons.mp ((orderedInsertTpl_perm t us).mem_iff.mp hx) with hx | hx
      · show strLt x.template_id u.template_id = false
        rw [hx]
        exact strLt_asymm hcase
      · exact hu x hx
    | false =>
      simp only [orderedInsertTpl, hcase]
      apply List.pairwise_cons.mpr
      refine ⟨?_, h⟩
      intro x hx
      rcases List.mem_cons.mp hx with hx | hx
      · show strLt x.template_id t.template_id = false
        rw [hx]
        exact hcase
      · show strLt x.template_id t.template_id = false
        cases hxt : strLt x.template_id t.template_id with
        | false => rfl
        | true =>
          have hux : strLt x.template_id u.template_id = false := hu x hx
          rcases strLt_total u.template_id x.template_id with h1 | h1 | h1
          · have : strLt u.template_id t.template_id = true := strLt_trans h1 hxt
            rw [this] at hcase
            cases hcase
          · rw [h1] at hux
            cases hux
          · rw [h1] at hcase
            rw [hxt] at hcase
            cases hcase

theorem sortTemplates_pairwise_le (l : List IndexTemplate) :
    (sortTemplates l).Pairwise tplLe := by
  induction l with
  | nil => simp [sortTemplates]
  | cons t ts ih => exact orderedInsertTpl_pairwise_le ih

theorem values_template_id_eq_keys {ts : List (String × IndexTemplate)}
    (hkey : ∀ p ∈ ts, p.2.template_id = p.1) :
    (ts.map Prod.snd).map (fun t => t.template_id) = ts.map Prod.fst := by
  rw [List.map_map]
  exact List.map_congr_left fun p hp => hkey p hp

theorem tagged_values_perm {ts : List (String × IndexTemplate)}
    (hkey : ∀ p ∈ ts, p.2.template_id = p.1) :
    ((sortTemplates (ts.map Prod.snd)).map fun t => (t.template_id, t)).Perm ts := by
  have h1 := (sortTemplates_perm (ts.map Prod.snd)).map fun t => (t.template_id, t)
  rw [List.map_map] at h1
  have h2 : ts.map ((fun t => (t.template_id, t)) ∘ Prod.snd) = ts := by
    have hcongr : ∀ p ∈ ts, ((fun t : IndexTemplate => (t.template_id, t)) ∘ Prod.snd) p = id p := by
      intro p hp
      simp only [Function.comp_apply, id_eq]
      rw [hkey p hp]
    rw [List.map_congr_left hcongr, List.map_id]
  rw [h2] at h1
  exact h1

theorem roundtrip_templates {ts : List (String × IndexTemplate)}
    (hnd : nodupKeys ts) (hkey : ∀ p ∈ ts, p.2.template_id = p.1) (k : String) :
    alookup k (hmFromList ((sortTemplates (ts.map Prod.snd)).map
      fun t => (t.template_id, t))) = alookup k ts := by
  rw [alookup_hmFromList]
  exact alookup_perm ((List.reverse_perm _).trans (tagged_values_perm hkey)) hnd k

theorem sorted_templates_pairwise_lt {ts : List (String × IndexTemplate)}
    (hnd : nodupKeys ts) (hkey : ∀ p ∈ ts, p.2.template_id = p.1) :
    (sortTemplates (ts.map Prod.snd)).Pairwise
      (fun a b => strLt a.template_id b.template_id = true) := by
  have hle : (sortTemplates (ts.map Prod.snd)).Pairwise tplLe :=
    sortTemplates_pairwise_le (ts.map Prod.snd)
  have hids : ((sortTemplates (ts.map Prod.snd)).map
      (fun t => t.template_id)).Nodup := by
    apply ((sortTemplates_perm (ts.map Prod.snd)).map
      (fun t => t.template_id)).nodup_iff.mpr
    rw [values_template_id_eq_keys hkey]
    exact hnd
  have hne : (sortTemplates (ts.map Prod.snd)).Pairwise
      (fun a b => a.template_id ≠ b.template_id) := List.pairwise_map.mp hids
  apply (hle.and hne).imp
  intro a b hab
  have h1 : strLt b.template_id a.template_id = false := hab.1
  rcases strLt_total a.template_id b.template_id with h | h | h
  · exact h
  · exact absurd h (by simp [h1])
  · exact absurd h hab.2

theorem decode_encode (m : Manifest) :
    decodeManifest (encodeManifest m) = .ok (Manifest.ofV0_7 (ManifestV0_7.ofManifest m)) := by
  simp [encodeManifest, decodeManifest]

theorem roundtrip_id_of_templates_nil {m : Manifest} (hs : sortedKeys m.indexes)
    (ht : m.templates = []) :
    Manifest.ofV0_7 (ManifestV0_7.ofManifest m) = m := by
  cases m with
  | mk idx tpl =>
    simp only at hs ht
    subst ht
    simp only [Manifest.ofV0_7, ManifestV0_7.ofManifest, List.map_nil]
    rw [btFromList_eq_self hs]
    rfl

theorem alookup_tagged_find {k : String} : ∀ ts : List IndexTemplate,
    alookup k (ts.map fun t => (t.template_id, t)) = ts.find? fun t => t.template_id == k := by
  intro ts
  induction ts with
  | nil => rfl
  | cons u us ih =>
    by_cases h : u.template_id = k
    · simp [alookup, List.find?_cons, h]
    · simp only [List.map_cons, alookup, if_neg h, List.find?_cons]
      have hb : (u.template_id == k) = false := by
        simp [h]
      rw [hb]
      exact ih

/-- Claim C1: for every valid `Manifest` aggregate (arbitrary, possibly
empty, indexes and templates, with each templates key equal to its value's
`template_id`), decoding the encoding of the aggregate yields an aggregate
equal to it under mapping equality for both the indexes map and the
templates map. -/
theorem manifest_encode_decode_roundtrip (m : Manifest) (h : m.valid) :
    decodeManifest (encodeManifest m) = .ok (Manifest.ofV0_7 (ManifestV0_7.ofManifest m)) ∧
    MapEq (Manifest.ofV0_7 (ManifestV0_7.ofManifest m)).indexes m.indexes ∧
    MapEq (Manifest.ofV0_7 (ManifestV0_7.ofManifest m)).templates m.templates := by
  obtain ⟨hs, hnd, hkey⟩ := h
  refine ⟨decode_encode m, ?_, ?_⟩
  · intro k
    simp only [Manifest.ofV0_7, ManifestV0_7.ofManifest]
    rw [btFromList_eq_self hs]
  · intro k
    simp only [Manifest.ofV0_7, ManifestV0_7.ofManifest]
    exact roundtrip_templates hnd hkey k

/-- Witness for C1 at a concrete valid aggregate with two indexes and two
(unsorted) templates. -/
theorem manifest_encode_decode_roundtrip_witness :
    sampleManifest.valid ∧
    decodeManifest (encodeManifest sampleManifest) =
      .ok (Manifest.ofV0_7 (ManifestV0_7.ofManifest sampleManifest)) ∧
    alookup "idx-a" (Manifest.ofV0_7 (ManifestV0_7.ofManifest sampleManifest)).indexes =
      alookup "idx-a" sampleManifest.indexes ∧
    alookup "tpl-b" (Manifest.ofV0_7 (ManifestV0_7.ofManifest sampleManifest)).templates =
      alookup "tpl-b" sampleManifest.templates :=
  ⟨by decide,
    (manifest_encode_decode_roundtrip sampleManifest (by decide)).1,
    (manifest_encode_decode_roundtrip sampleManifest (by decide)).2.1 "idx-a",
    (manifest_encode_decode_roundtrip sampleManifest (by decide)).2.2 "tpl-b"⟩

/-- Claim C7: for every (valid) `Manifest` aggregate, `encode` wraps it in
the envelope tagged with the current version string `"0.7"`, presents the
templates as a sequence sorted in strictly ascending `template_id` order,
and passes the indexes through as the naturally ordered mapping; hence the
encoding of an aggregate is deterministic — any two valid aggregates equal
under mapping equality encode to the same value. -/
theorem encode_versioned_sorted_deterministic (m : Manifest) (h : m.valid) :
    encodeManifest m = .versioned "0.7" (ManifestV0_7.ofManifest m) ∧
    (ManifestV0_7.ofManifest m).indexes = m.indexes ∧
    sortedKeys (ManifestV0_7.ofManifest m).indexes ∧
    (ManifestV0_7.ofManifest m).templates.Pairwise
      (fun a b => strLt a.template_id b.template_id = true) ∧
    ∀ m2 : Manifest, m2.valid → MapEq m.indexes m2.indexes →
      MapEq m.templates m2.templates → encodeManifest m = encodeManifest m2 := by
  obtain ⟨hs, hnd, hkey⟩ := h
  refine ⟨rfl, rfl, hs, sorted_templates_pairwise_lt hnd hkey, ?_⟩
  intro m2 h2 hidx htpl
  obtain ⟨hs2, hnd2, hkey2⟩ := h2
  have hidx_eq : m.indexes = m2.indexes :=
    perm_eq_of_pairwise_key_lt Prod.fst
      (perm_of_mapEq (nodupKeys_of_sortedKeys hs) (nodupKeys_of_sortedKeys hs2) hidx)
      hs hs2
  have hvals : (m.templates.map Prod.snd).Perm (m2.templates.map Prod.snd) :=
    (perm_of_mapEq hnd hnd2 htpl).map Prod.snd
  have hsorted_perm : (sortTemplates (m.templates.map Prod.snd)).Perm
      (sortTemplates (m2.templates.map Prod.snd)) :=
    ((sortTemplates_perm _).trans hvals).trans (sortTemplates_perm _).symm
  have htpl_eq : sortTemplates (m.templates.map Prod.snd)
      = sortTemplates (m2.templates.map Prod.snd) :=
    perm_eq_of_pairwise_key_lt (fun t => t.template_id) hsorted_perm
      (sorted_templates_pairwise_lt hnd hkey) (sorted_templates_pairwise_lt hnd2 hkey2)
  simp [encodeManifest, ManifestV0_7.ofManifest, hidx_eq, htpl_eq]

/-- Witness for C7: the sample aggregate and its mapping-equal permutation
encode identically. -/
theorem encode_versioned_sorted_deterministic_witness :
    sampleManifest.valid ∧ samplePermManifest.valid ∧
    encodeManifest sampleManifest = .versioned "0.7" (ManifestV0_7.ofManifest sampleManifest) ∧
    encodeManifest sampleManifest = encodeManifest samplePermManifest := by
  have hmapIdx : MapEq sampleManifest.indexes samplePermManifest.indexes := fun k => rfl
  have hmapTpl : MapEq sampleManifest.templates samplePermManifest.templates := by
    intro k
    by_cases h1 : "tpl-a" = k
    · rw [← h1]
      decide
    · by_cases h2 : "tpl-b" = k
      · rw [← h2]
        decide
      · show alookup k [("tpl-b", sampleTemplateB), ("tpl-a", sampleTemplateA)]
          = alookup k [("tpl-a", sampleTemplateA), ("tpl-b", sampleTemplateB)]
        simp [alookup, h1, h2]
  refine ⟨by decide, by decide,
    (encode_versioned_sorted_deterministic sampleManifest (by decide)).1,
    (encode_versioned_sorted_deterministic sampleManifest (by decide)).2.2.2.2
      samplePermManifest (by decide) hmapIdx hmapTpl⟩

/-- Claim C9: for every decoded current-version payload whose template
sequence contains two or more entries with the same `template_id`, decoding
succeeds and silently collapses the duplicates when rebuilding the templates
mapping, keeping the last occurrence in sequence order, rather than
rejecting the input. -/
theorem duplicate_template_ids_last_one_wins (v : ManifestV0_7)
    (hdup : ∃ i j, ∃ hi : i < v.templates.length, ∃ hj : j < v.templates.length,
      i ≠ j ∧ (v.templates.get ⟨i, hi⟩).template_id
        = (v.templates.get ⟨j, hj⟩).template_id) :
    decodeManifest (.versioned "0.7" v) = .ok (Manifest.ofV0_7 v) ∧
    ∀ k, alookup k (Manifest.ofV0_7 v).templates
      = v.templates.reverse.find? (fun t => t.template_id == k) := by
  refine ⟨by simp [decodeManifest], ?_⟩
  intro k
  simp only [Manifest.ofV0_7]
  rw [alookup_hmFromList, ← List.map_reverse, alookup_tagged_find]

/-- Witness for C9: a payload repeating `tpl-a` decodes and the second
occurrence wins. -/
theorem duplicate_template_ids_last_one_wins_witness :
    decodeManifest (.versioned "0.7" sampleDupPayload) = .ok (Manifest.ofV0_7 sampleDupPayload) ∧
    alookup "tpl-a" (Manifest.ofV0_7 sampleDupPayload).templates
      = sampleDupPayload.templates.reverse.find? (fun t => t.template_id == "tpl-a") ∧
    alookup "tpl-a" (Manifest.ofV0_7 sampleDupPayload).templates
      = some { template_id := "tpl-a", index_id_patterns := ["y*"], priority := 2 } :=
  have h := duplicate_template_ids_last_one_wins sampleDupPayload
    ⟨0, 1, by decide, by decide, by decide, by decide⟩
  ⟨h.1, h.2 "tpl-a", by decide⟩

/-- Counterexample to claim C6 as stated: the Pascal-case spelling
`"Active"` is not accepted on input (the serde alias is only `"Alive"`), so
decoding `"Alive"` does not agree with decoding `"Active"`. -/
theorem status_decode_active_rejected :
    IndexStatus.deserialize "Active" = none ∧
    IndexStatus.deserialize "Alive" = some IndexStatus.Active ∧
    IndexStatus.deserialize "Alive" ≠ IndexStatus.deserialize "Active" := by decide

/-- Claim C6 (amended): `"Alive"` decodes to the same status value as the
canonical `"active"`; the historical Pascal-case spellings accepted on input
are exactly `"Creating"`, `"Alive"` and `"Deleting"` (`"Active"` is
rejected); serializing any status emits the canonical lower-snake-case
spelling, in particular `"active"` for the Active status. -/
theorem status_alias_tolerance :
    IndexStatus.deserialize "Alive" = IndexStatus.deserialize "active" ∧
    IndexStatus.deserialize "Alive" = some IndexStatus.Active ∧
    IndexStatus.deserialize "Creating" = some IndexStatus.Creating ∧
    IndexStatus.deserialize "Deleting" = some IndexStatus.Deleting ∧
    IndexStatus.deserialize "Active" = none ∧
    IndexStatus.serialize IndexStatus.Creating = "creating" ∧
    IndexStatus.serialize IndexStatus.Active = "active" ∧
    IndexStatus.serialize IndexStatus.Deleting = "deleting" ∧
    IndexStatus.deserialize (IndexStatus.serialize IndexStatus.Creating)
      = some IndexStatus.Creating ∧
    IndexStatus.deserialize (IndexStatus.serialize IndexStatus.Active)
      = some IndexStatus.Active ∧
    IndexStatus.deserialize (IndexStatus.serialize IndexStatus.Deleting)
      = some IndexStatus.Deleting := by decide

/-- Claim C5: the error classifier maps an Unauthorized storage error to a
Forbidden domain error whose message names the store location and the path,
and maps every other storage error to an Internal domain error whose message
names the attempted operation and the location, carrying the original
failure's description in the separate cause field — the primary message is
the same whatever the cause, so the cause is never interpolated into it. -/
theorem classify_storage_error (name descr descr2 uri path op : String) :
    (∃ msg, into_metastore_error { kind := .Unauthorized, description := descr } uri path op
        = .Forbidden msg ∧
      (∃ a b, msg = a ++ uri ++ b) ∧ (∃ a b, msg = a ++ path ++ b)) ∧
    (∃ msg, into_metastore_error { kind := .OtherKind name, description := descr } uri path op
        = .Internal msg descr ∧
      (∃ a b, msg = a ++ op ++ b) ∧ (∃ a b, msg = a ++ uri ++ b) ∧
      into_metastore_error { kind := .OtherKind name, description := descr2 } uri path op
        = .Internal msg descr2) := by
  constructor
  · refine ⟨_, rfl, ?_, ?_⟩
    · exact ⟨"failed to access manifest file located at `",
        "/" ++ path ++ "`: unauthorized", by simp [String.append_assoc]⟩
    · exact ⟨"failed to access manifest file located at `" ++ uri ++ "/",
        "`: unauthorized", by simp [String.append_assoc]⟩
  · refine ⟨_, rfl, ?_, ?_, rfl⟩
    · exact ⟨"failed to ", " manifest file located at `" ++ uri ++ "/" ++ path ++ "`",
        by simp [String.append_assoc]⟩
    · exact ⟨"failed to " ++ op ++ " manifest file located at `",
        "/" ++ path ++ "`", by simp [String.append_assoc]⟩

/-- Claim C10: classifying an Unauthorized storage failure yields a
Forbidden error that carries only the fixed access message naming location
and path: the result is independent of the original error's description and
of the attempted operation name (both discarded, and Forbidden has no cause
field) — in contrast with the Internal branch, which names the operation in
its message and keeps the description as its cause. -/
theorem unauthorized_forbidden_discards_cause (descr descr2 uri path op op2 name : String) :
    into_metastore_error { kind := .Unauthorized, description := descr } uri path op
      = .Forbidden ("failed to access manifest file located at `" ++ uri ++ "/" ++ path
          ++ "`: unauthorized") ∧
    into_metastore_error { kind := .Unauthorized, description := descr } uri path op
      = into_metastore_error { kind := .Unauthorized, description := descr2 } uri path op2 ∧
    (∃ msg, into_metastore_error { kind := .OtherKind name, description := descr } uri path op
        = .Internal msg descr ∧ ∃ a b, msg = a ++ op ++ b) := by
  refine ⟨rfl, rfl, _, rfl, "failed to ",
    " manifest file located at `" ++ uri ++ "/" ++ path ++ "`", ?_⟩
  simp [String.append_assoc]

/-- Claim C2: when the current-format file exists, `load_or_create` reads
and decodes it and returns the decoded `Manifest`; a decode failure (in
particular an unrecognized version tag) fails the call with the decode error
propagated as a domain error — never a silently empty manifest — with no
fallback to the legacy file, and neither file at the store is written or
deleted. -/
theorem load_with_current_file (s : Store) (doc : JsonDoc)
    (h : s.manifestFile = some doc) :
    (load_or_create_manifest s).2 = s ∧
    (∀ m, decodeManifest doc = .ok m → (load_or_create_manifest s).1 = .ok m) ∧
    (∀ e, decodeManifest doc = .error e →
      (load_or_create_manifest s).1 = .error (.JsonDeserializeError e)) ∧
    (∀ tag payload, doc = .versioned tag payload → tag ≠ "0.7" →
      (load_or_create_manifest s).1
        = .error (.JsonDeserializeError ("unknown variant `" ++ tag ++ "`"))) := by
  refine ⟨?_, ?_, ?_, ?_⟩
  · simp only [load_or_create_manifest, h]
    cases hd : decodeManifest doc <;> rfl
  · intro m hm
    simp [load_or_create_manifest, h, hm]
  · intro e he
    simp [load_or_create_manifest, h, he]
  · intro tag payload hdoc htag
    subst hdoc
    simp [load_or_create_manifest, h, decodeManifest, htag]

/-- Witness for C2 at a store whose current-format file carries the
unrecognized version tag `"0.4"`. -/
theorem load_with_current_file_witness :
    (load_or_create_manifest sampleStoreBadVersion).2 = sampleStoreBadVersion ∧
    (load_or_create_manifest sampleStoreBadVersion).1
      = .error (.JsonDeserializeError ("unknown variant `" ++ "0.4" ++ "`")) :=
  have h := load_with_current_file sampleStoreBadVersion
    (.versioned "0.4" { indexes := [], templates := [] }) rfl
  ⟨h.1, h.2.2.2 "0.4" { indexes := [], templates := [] } rfl (by decide)⟩

/-- Claim C3: when the current-format file is absent and the legacy file
decodes successfully, `load_or_create` returns the upgrade of the legacy
mapping (indexes verbatim, empty templates), writes the upgraded aggregate
under the current-format path, then attempts to delete the legacy file; a
deletion failure neither fails the call nor changes the returned aggregate. -/
theorem legacy_migration (s : Store) (doc : JsonDoc) (lm : LegacyManifest)
    (h1 : s.manifestFile = none) (h2 : s.legacyFile = some doc)
    (h3 : decodeLegacyManifest doc = .ok lm) :
    (load_or_create_manifest s).1 = .ok lm.into_manifest ∧
    lm.into_manifest.indexes = lm.indexes ∧
    lm.into_manifest.templates = [] ∧
    (load_or_create_manifest s).2.manifestFile = some (encodeManifest lm.into_manifest) ∧
    (s.deleteFails = true → (load_or_create_manifest s).2.legacyFile = s.legacyFile) ∧
    (s.deleteFails = false → (load_or_create_manifest s).2.legacyFile = none) ∧
    (load_or_create_manifest { s with deleteFails := true }).1
      = (load_or_create_manifest { s with deleteFails := false }).1 := by
  refine ⟨?_, rfl, rfl, ?_, ?_, ?_, ?_⟩
  · simp [load_or_create_manifest, h1, h2, h3]
  · cases hdel : s.deleteFails <;>
      simp [load_or_create_manifest, h1, h2, h3, save_manifest, hdel]
  · intro hdel
    simp [load_or_create_manifest, h1, h2, h3, save_manifest, hdel]
  · intro hdel
    simp [load_or_create_manifest, h1, h2, h3, save_manifest, hdel]
  · simp [load_or_create_manifest, h1, h2, h3, save_manifest]

/-- Witness for C3 at the repository's own legacy test document, with both
outcomes of the delete operation. -/
theorem legacy_migration_witness :
    (load_or_create_manifest sampleStoreLegacy).1 = .ok sampleLegacyParsed.into_manifest ∧
    sampleLegacyParsed.into_manifest.indexes = sampleLegacyParsed.indexes ∧
    sampleLegacyParsed.into_manifest.templates = [] ∧
    (load_or_create_manifest sampleStoreLegacy).2.manifestFile
      = some (encodeManifest sampleLegacyParsed.into_manifest) ∧
    (load_or_create_manifest sampleStoreLegacy).2.legacyFile = none ∧
    (load_or_create_manifest sampleStoreLegacyDeleteFails).1
      = .ok sampleLegacyParsed.into_manifest ∧
    (load_or_create_manifest sampleStoreLegacyDeleteFails).2.legacyFile
      = sampleStoreLegacyDeleteFails.legacyFile :=
  have hok := legacy_migration sampleStoreLegacy sampleLegacyDoc sampleLegacyParsed
    rfl rfl rfl
  have hfail := legacy_migration sampleStoreLegacyDeleteFails sampleLegacyDoc
    sampleLegacyParsed rfl rfl rfl
  ⟨hok.1, hok.2.1, hok.2.2.1, hok.2.2.2.1, hok.2.2.2.2.2.1 rfl,
    hfail.1, hfail.2.2.2.2.1 rfl⟩

/-- Claim C4: on a store where neither file exists, `load_or_create` returns
the empty aggregate (zero indexes, zero templates) and persists it under the
current-format path, leaving a non-empty current-format file behind. -/
theorem first_access_empty_store (s : Store) (h1 : s.manifestFile = none)
    (h2 : s.legacyFile = none) :
    (load_or_create_manifest s).1 = .ok Manifest.default ∧
    Manifest.default.indexes = [] ∧
    Manifest.default.templates = [] ∧
    (load_or_create_manifest s).2.manifestFile = some (encodeManifest Manifest.default) ∧
    (to_json_bytes Manifest.default).length > 0 := by
  refine ⟨?_, rfl, rfl, ?_, by decide⟩
  · simp [load_or_create_manifest, h1, h2]
  · simp [load_or_create_manifest, h1, h2, save_manifest]

/-- Witness for C4 at the empty store. -/
theorem first_access_empty_store_witness :
    (load_or_create_manifest sampleStoreEmpty).1 = .ok Manifest.default ∧
    (load_or_create_manifest sampleStoreEmpty).2.manifestFile
      = some (encodeManifest Manifest.default) ∧
    (to_json_bytes Manifest.default).length > 0 :=
  have h := first_access_empty_store sampleStoreEmpty rfl rfl
  ⟨h.1, h.2.2.2.1, h.2.2.2.2⟩

theorem decodeLegacy_indexes_sorted {doc : JsonDoc} {lm : LegacyManifest}
    (h : decodeLegacyManifest doc = .ok lm) : sortedKeys lm.indexes := by
  cases doc with
  | versioned tag payload => simp [decodeLegacyManifest] at h
  | garbage => simp [decodeLegacyManifest] at h
  | flat entries =>
    simp only [decodeLegacyManifest] at h
    cases hp : parseStatusEntries entries with
    | some parsed =>
      rw [hp] at h
      cases h
      exact sortedKeys_btFromList parsed
    | none =>
      rw [hp] at h
      cases h

theorem decode_encode_of_no_templates {m : Manifest} (hs : sortedKeys m.indexes)
    (ht : m.templates = []) : decodeManifest (encodeManifest m) = .ok m := by
  rw [decode_encode, roundtrip_id_of_templates_nil hs ht]

/-- Claim C8: after every successful `load_or_create` call — whichever of
the three initial store states applied — the store holds a current-format
file, and a second call returns an equal `Manifest` with the store left
untouched (no migration or creation is re-triggered). -/
theorem load_or_create_idempotent (s : Store) (m : Manifest) (s' : Store)
    (h : load_or_create_manifest s = (.ok m, s')) :
    s'.manifestFile.isSome = true ∧
    load_or_create_manifest s' = (.ok m, s') := by
  cases hm : s.manifestFile with
  | some doc =>
    cases hd : decodeManifest doc with
    | ok m0 =>
      simp only [load_or_create_manifest, hm, hd] at h
      injection h with hres hstore
      injection hres with hm0
      subst hm0
      subst hstore
      constructor
      · rw [hm]
        rfl
      · simp [load_or_create_manifest, hm, hd]
    | error e =>
      simp only [load_or_create_manifest, hm, hd] at h
      injection h with hres hstore
      cases hres
  | none =>
    cases hl : s.legacyFile with
    | some doc =>
      cases hd : decodeLegacyManifest doc with
      | ok lm =>
        simp only [load_or_create_manifest, hm, hl, hd] at h
        injection h with hres hstore
        injection hres with hm0
        subst hm0
        have hdecode : decodeManifest (encodeManifest lm.into_manifest)
            = .ok lm.into_manifest :=
          decode_encode_of_no_templates (decodeLegacy_indexes_sorted hd) rfl
        simp only [save_manifest] at hstore
        cases hdel : s.deleteFails with
        | true =>
          rw [hdel] at hstore
          simp at hstore
          subst hstore
          exact ⟨rfl, by simp [load_or_create_manifest, hdecode]⟩
        | false =>
          rw [hdel] at hstore
          simp at hstore
          subst hstore
          exact ⟨rfl, by simp [load_or_create_manifest, hdecode]⟩
      | error e =>
        simp only [load_or_create_manifest, hm, hl, hd] at h
        injection h with hres hstore
        cases hres
    | none =>
      simp only [load_or_create_manifest, hm, hl] at h
      injection h with hres hstore
      injection hres with hm0
      subst hm0
      subst hstore
      have hdecode : decodeManifest (encodeManifest Manifest.default)
          = .ok Manifest.default :=
        decode_encode_of_no_templates (by simp [Manifest.default, sortedKeys]) rfl
      exact ⟨rfl, by simp [load_or_create_manifest, save_manifest, hdecode]⟩

/-- Witness for C8: migrating the sample legacy store and calling again. -/
theorem load_or_create_idempotent_witness :
    load_or_create_manifest sampleStoreLegacy = (.ok sampleMigrated, sampleMigratedStore) ∧
    sampleMigratedStore.manifestFile.isSome = true ∧
    load_or_create_manifest sampleMigratedStore = (.ok sampleMigrated, sampleMigratedStore) :=
  have h : load_or_create_manifest sampleStoreLegacy
      = (.ok sampleMigrated, sampleMigratedStore) := rfl
  ⟨h, (load_or_create_idempotent sampleStoreLegacy sampleMigrated sampleMigratedStore h).1,
    (load_or_create_idempotent sampleStoreLegacy sampleMigrated sampleMigratedStore h).2⟩
